import Mathlib

/-!
Shallow embedding of the mdouchement/tiff decoder (Go) and proofs about it.

The embedding follows the Go sources: `idf.go` (header/IFD parsing and the
DNG primary-image override), `reader.go` (the `Decode` driver: block
geometry, the strip/tile consistency check, raster allocation, the block
loop), `compress.go` (`unpackBits`, `unRLE`), `decode_color_filter_array.go`
(white balance and the camera-to-XYZ matrix of the CFA demosaic path) and
the `tag` accessors (`rational`, `sRational`, `firstVal`, `asFloat`).

Go machine integers are modelled by `Nat`/`Int` with explicit wrapping where
the code truncates; Go float64 arithmetic on tag values is modelled by exact
rationals (the claims settled here depend on which values are combined, not
on binary rounding); fallible code returns `Option`/`Except`, with `none`
standing for a Go panic or a propagated read error.
-/

namespace TiffSpec

/-! ### Tags and tag maps (`idf.go`, `tag` type) -/

/-- One parsed IFD entry: tag id, datatype, and the decoded 64-bit words
(`tag` struct of the Go source). -/
structure Tag where
  id : Nat
  datatype : Nat
  val : List Nat
deriving DecidableEq, Repr

/-- A tag map (`map[uint16]tag` in Go), modelled as an association list where
the first binding of a key wins; insertion conses, so it overwrites. -/
abbrev TagMap := List (Nat × Tag)

/-- Lookup in a tag map: first binding of the key. -/
def TagMap.lookup (m : TagMap) (k : Nat) : Option Tag :=
  match m with
  | [] => none
  | (k₁, t) :: rest => if k₁ = k then some t else TagMap.lookup rest k

/-- Go `m[k] = t`: the new binding shadows any older one. -/
def TagMap.insert (m : TagMap) (k : Nat) (t : Tag) : TagMap :=
  (k, t) :: m

/-- Remove every binding of a key (used to state that a computation ignores
a tag). -/
def TagMap.eraseKey (m : TagMap) (k : Nat) : TagMap :=
  match m with
  | [] => []
  | (k₁, t) :: rest =>
      if k₁ = k then TagMap.eraseKey rest k
      else (k₁, t) :: TagMap.eraseKey rest k

/-- `tag#firstVal()`: first word, or 0 when the entry is absent or empty
(a missing map key yields the zero `tag` in Go). -/
def firstVal (m : TagMap) (k : Nat) : Nat :=
  match TagMap.lookup m k with
  | some t => t.val.headD 0
  | none => 0

/-- `d.features[k].val`: the word list, `[]` when the key is missing. -/
def tagVals (m : TagMap) (k : Nat) : List Nat :=
  match TagMap.lookup m k with
  | some t => t.val
  | none => []

/-! ### Tag ids and constants (`const.go`) -/

def tImageWidth : Nat := 256
def tImageLength : Nat := 257
def tBitsPerSample : Nat := 258
def tCompression : Nat := 259
def tPhotometricInterp : Nat := 262
def tStripOffsets : Nat := 273
def tSamplesPerPixel : Nat := 277
def tRowsPerStrip : Nat := 278
def tStripByteCounts : Nat := 279
def tTileWidth : Nat := 322
def tTileLength : Nat := 323
def tTileOffsets : Nat := 324
def tTileByteCounts : Nat := 325
def tPlanarConfiguration : Nat := 284
def tPredictor : Nat := 317
def tExtraSamples : Nat := 338
def tSampleFormat : Nat := 339
def tStonits : Nat := 37439
def tNewSubFileType : Nat := 254
def tSubIFDs : Nat := 330
def tCFARepeatPatternDim : Nat := 33421
def tCFAPattern : Nat := 33422
def tDNGVersion : Nat := 50706
def tDNGBackwardVersion : Nat := 50707
def tCFAPlaneColor : Nat := 50710
def tCFALayout : Nat := 50711
def tLinearizationTable : Nat := 50712
def tBlackLevel : Nat := 50714
def tWhiteLevel : Nat := 50717
def tColorMatrix1 : Nat := 50721
def tColorMatrix2 : Nat := 50722
def tAsShotNeutral : Nat := 50728
def tBaselineExposure : Nat := 50730

/-- NewSubFileType value flagging the full-resolution primary image. -/
def sftPrimaryImage : Nat := 0

/-- NewSubFileType value flagging a reduced-resolution thumbnail. -/
def sftThumbnail : Nat := 1

/-- Datatype codes (p. 14-16 of the TIFF spec). -/
def dtByte : Nat := 1
def dtShort : Nat := 3
def dtLong : Nat := 4
def dtRational : Nat := 5
def dtSRational : Nat := 10
def dtDouble : Nat := 12

/-! ### The DNG primary-image override (`newIDF`, `idf.go`) -/

/-- The scan in `newIDF`: walk the IFD tree in order and return the first IFD
whose `NewSubFileType` tag is present with first value `sftPrimaryImage`
(`feature.val[0] == sftPrimaryImage` in Go; an entry with an empty value
list would make the Go code panic, so theorems about this function assume
such entries away). -/
def findPrimary : List TagMap → Option TagMap
  | [] => none
  | f :: rest =>
      match TagMap.lookup f tNewSubFileType with
      | some t =>
          if t.val.head? = some sftPrimaryImage then some f else findPrimary rest
      | none => findPrimary rest

/-- The feature map produced by `newIDF` from a fully parsed IFD tree
(main IFD at index 0): the main IFD is copied into the feature map; if a
`DNGVersion` tag is present the file is DNG, and the first primary-image
IFD of the tree is then added key-by-key over the feature map
(`d.features[k] = v` for each of its entries). Appending in front of an
association list with first-match lookup realizes exactly that overwrite. -/
def newIDFFeatures (tree : List TagMap) : TagMap :=
  match tree with
  | [] => []
  | main :: _ =>
      if (TagMap.lookup main tDNGVersion).isSome then
        match findPrimary tree with
        | some primary => primary ++ main
        | none => main
      else main

/-- The `NewSubFileType` entry of one IFD, when present, has a nonempty
value list (otherwise Go would panic on `feature.val[0]`). -/
def nsftNonempty (f : TagMap) : Bool :=
  match TagMap.lookup f tNewSubFileType with
  | some t => !t.val.isEmpty
  | none => true

/-- A tree is wellformed for the primary scan when every `NewSubFileType`
entry it holds has a nonempty value list. -/
def wfNewSubFileType (tree : List TagMap) : Prop :=
  ∀ f ∈ tree, nsftNonempty f = true

instance (tree : List TagMap) : Decidable (wfNewSubFileType tree) :=
  inferInstanceAs (Decidable (∀ f ∈ tree, nsftNonempty f = true))

/-! ### The `Decode` driver (`reader.go`): geometry, checks, raster, loop -/

/-- Image modes relevant to `Decode` (`imageMode` in `const.go`). -/
inductive Mode
  | mRGB
  | mLogL
  | mLogLuv
  | mColorFilterArray
deriving DecidableEq, Repr

/-- The error kinds of `util.go` that `Decode` can surface. -/
inductive Err
  | format (msg : String)
  | unsupported (msg : String)
deriving DecidableEq, Repr

/-- The raster allocated by `Decode` (`hdr.NewRGB` / `hdr.NewXYZ` with the
declared bounds); pixel contents are owned by the external sink. -/
inductive Raster
  | rgb (width height : Nat)
  | xyz (width height : Nat)
deriving DecidableEq, Repr

/-- Strip/tile geometry computed at the top of `Decode` (`reader.go`). -/
structure Geometry where
  blockPadding : Bool
  blockWidth : Nat
  blockHeight : Nat
  blocksAcross : Nat
  blocksDown : Nat
  blockOffsets : List Nat
  blockCounts : List Nat
deriving DecidableEq, Repr

/-- The geometry block of `Decode`: defaults from the config, zeroed block
counts on zero dimensions, then the tile branch (`TileWidth != 0`) or the
strip branch, each recomputing the grid by ceiling division. -/
def geometry (width height : Nat) (features : TagMap) : Geometry :=
  let blockWidth := width
  let blockHeight := height
  let blocksAcross := if width = 0 then 0 else 1
  let blocksDown := if height = 0 then 0 else 1
  if firstVal features tTileWidth ≠ 0 then
    let blockWidth := firstVal features tTileWidth
    let blockHeight := firstVal features tTileLength
    let blocksAcross :=
      if blockWidth ≠ 0 then (width + blockWidth - 1) / blockWidth else blocksAcross
    let blocksDown :=
      if blockHeight ≠ 0 then (height + blockHeight - 1) / blockHeight else blocksDown
    ⟨true, blockWidth, blockHeight, blocksAcross, blocksDown,
      tagVals features tTileOffsets, tagVals features tTileByteCounts⟩
  else
    let blockHeight :=
      if firstVal features tRowsPerStrip ≠ 0 then firstVal features tRowsPerStrip
      else blockHeight
    let blocksDown :=
      if blockHeight ≠ 0 then (height + blockHeight - 1) / blockHeight else blocksDown
    ⟨false, blockWidth, blockHeight, blocksAcross, blocksDown,
      tagVals features tStripOffsets, tagVals features tStripByteCounts⟩

/-- The required bit depth of each mode, as checked by `Decode`'s raster
switch (`reader.go`). -/
def requiredBpp : Mode → Nat
  | .mRGB => 32
  | .mLogL => 16
  | .mLogLuv => 16
  | .mColorFilterArray => 16

/-- The error message `Decode` emits on a bit-depth mismatch. -/
def bppErrMsg : Mode → String
  | .mRGB => "Invalid BitsPerSample for RGB 32 bits floating-point format"
  | .mLogL => "Invalid BitsPerSample for LogL format"
  | .mLogLuv => "Invalid BitsPerSample for LogLuv format"
  | .mColorFilterArray => "Invalid BitsPerSample for ColorFilterArray format"

/-- The raster-allocation switch of `Decode`: each mode demands one exact
bit depth and otherwise fails with a format error naming the mode. -/
def allocRaster (mode : Mode) (bpp width height : Nat) : Except Err Raster :=
  match mode with
  | .mRGB =>
      if bpp = 32 then .ok (.rgb width height)
      else .error (.format (bppErrMsg .mRGB))
  | .mLogL =>
      if bpp = 16 then .ok (.xyz width height)
      else .error (.format (bppErrMsg .mLogL))
  | .mLogLuv =>
      if bpp = 16 then .ok (.xyz width height)
      else .error (.format (bppErrMsg .mLogLuv))
  | .mColorFilterArray =>
      if bpp = 16 then .ok (.xyz width height)
      else .error (.format (bppErrMsg .mColorFilterArray))

/-- One strip/tile of `Decode`'s block loop: source byte range, clipped
block size and the pixel rectangle passed to the raster decoder. -/
structure Block where
  offset : Nat
  byteCount : Nat
  blkW : Nat
  blkH : Nat
  xmin : Nat
  ymin : Nat
  xmax : Nat
  ymax : Nat
deriving DecidableEq, Repr

/-- The body of `Decode`'s double loop at indices `(i, j)`: the last strip
row/column is truncated when not padding, and offsets/counts are indexed at
`j*blocksAcross + i`. -/
def blockAt (width height : Nat) (g : Geometry) (i j : Nat) : Block :=
  let blkW :=
    if ¬g.blockPadding ∧ i = g.blocksAcross - 1 ∧ width % g.blockWidth ≠ 0 then
      width % g.blockWidth
    else g.blockWidth
  let blkH :=
    if ¬g.blockPadding ∧ j = g.blocksDown - 1 ∧ height % g.blockHeight ≠ 0 then
      height % g.blockHeight
    else g.blockHeight
  { offset := g.blockOffsets.getD (j * g.blocksAcross + i) 0
    byteCount := g.blockCounts.getD (j * g.blocksAcross + i) 0
    blkW := blkW
    blkH := blkH
    xmin := i * g.blockWidth
    ymin := j * g.blockHeight
    xmax := i * g.blockWidth + blkW
    ymax := j * g.blockHeight + blkH }

/-- The blocks `Decode` visits, in loop order (`i` across outer, `j` down
inner). -/
def blockList (width height : Nat) (g : Geometry) : List Block :=
  (List.range g.blocksAcross).flatMap fun i =>
    (List.range g.blocksDown).map fun j => blockAt width height g i j

/-- The block loop: decompress-and-decode each block in order, aborting on
the first error (`process` stands for the per-block decompress + rasterize
step). -/
def decodeLoop (process : Block → Except Err Unit) : List Block → Except Err Unit
  | [] => .ok ()
  | b :: rest =>
      match process b with
      | .error e => .error e
      | .ok _ => decodeLoop process rest

/-- `Decode` (`reader.go`) after construction of the decoder: compute the
block geometry, fail on inconsistent offset/count arrays, allocate the
raster checking the bit depth, then run the block loop. -/
def DecodeDriver (width height : Nat) (mode : Mode) (bpp : Nat) (features : TagMap)
    (process : Block → Except Err Unit) : Except Err Raster :=
  let g := geometry width height features
  let n := g.blocksAcross * g.blocksDown
  if g.blockOffsets.length < n ∨ g.blockCounts.length < n then
    .error (.format "inconsistent header")
  else
    match allocRaster mode bpp width height with
    | .error e => .error e
    | .ok m =>
        match decodeLoop process (blockList width height g) with
        | .error e => .error e
        | .ok _ => .ok m

/-- The raster `Decode` allocates when the bit depth matches. -/
def rasterFor (mode : Mode) (width height : Nat) : Raster :=
  match mode with
  | .mRGB => .rgb width height
  | _ => .xyz width height

/-! ### Claim C1: DNG primary-image override -/

/-- A concrete DNG main IFD: carries `DNGVersion`, is flagged as thumbnail,
and declares width 100. -/
def c1Main : TagMap :=
  [(tDNGVersion, ⟨tDNGVersion, dtByte, [1, 4, 0, 0]⟩),
   (tNewSubFileType, ⟨tNewSubFileType, dtLong, [sftThumbnail]⟩),
   (tImageWidth, ⟨tImageWidth, dtLong, [100]⟩),
   (tImageLength, ⟨tImageLength, dtLong, [60]⟩)]

/-- A concrete SubIFD flagged as the primary image with width 4000; it has
no `DNGVersion` tag of its own. -/
def c1Sub : TagMap :=
  [(tNewSubFileType, ⟨tNewSubFileType, dtLong, [sftPrimaryImage]⟩),
   (tImageWidth, ⟨tImageWidth, dtLong, [4000]⟩),
   (tImageLength, ⟨tImageLength, dtLong, [3000]⟩)]

/-! ### Claim C2: bit-depth check at raster allocation -/

/-- A concrete feature map with one strip, so the geometry check passes. -/
def c2Features : TagMap :=
  [(tStripOffsets, ⟨tStripOffsets, dtLong, [8]⟩),
   (tStripByteCounts, ⟨tStripByteCounts, dtLong, [8]⟩)]

/-! ### Claim C3: the SampleFormat special rule of `parseIFD` -/

/-- The allow-list of tag ids `parseIFD` stores into the tree (`idf.go`). -/
def interestingTags : List Nat :=
  [tBitsPerSample, tExtraSamples, tPhotometricInterp, tCompression, tPredictor,
   tNewSubFileType, tSubIFDs, tStripOffsets, tStripByteCounts, tSamplesPerPixel,
   tRowsPerStrip, tTileWidth, tTileLength, tTileOffsets, tTileByteCounts,
   tPlanarConfiguration, tImageLength, tImageWidth, tStonits,
   tCFARepeatPatternDim, tCFAPattern, tDNGVersion, tDNGBackwardVersion,
   tCFAPlaneColor, tCFALayout, tLinearizationTable, tBlackLevel, tWhiteLevel,
   tColorMatrix1, tColorMatrix2, tAsShotNeutral, tBaselineExposure]

/-- `parseIFD` (`idf.go`) after `ifdUint` has decoded the entry's values:
tags on the allow-list are stored into the IFD's map; a `SampleFormat`
entry fails as unsupported as soon as any decoded value equals 1, and is
otherwise dropped without being stored; all other tags are ignored. -/
def parseIFDEntry (m : TagMap) (tid dt : Nat) (val : List Nat) :
    Except Err TagMap :=
  if tid ∈ interestingTags then
    .ok (TagMap.insert m tid ⟨tid, dt, val⟩)
  else if tid = tSampleFormat then
    if 1 ∈ val then .error (.unsupported "sample format")
    else .ok m
  else .ok m

/-! ### Claim C9: the `rational` / `sRational` tag accessors -/

/-- Go's `big.NewRat(a, b)`: `Rat.SetFrac64` panics with "division by zero"
when `b == 0`; the panic is modelled as `none`, a normal return as the
exact rational. -/
def bigNewRat (a b : Int) : Option ℚ :=
  if b = 0 then none else some ((a : ℚ) / (b : ℚ))

/-- Go `int32(x)`: two's-complement reinterpretation of the low 32 bits. -/
def toInt32 (n : Nat) : Int :=
  if n % 2 ^ 32 < 2 ^ 31 then ((n % 2 ^ 32 : Nat) : Int)
  else ((n % 2 ^ 32 : Nat) : Int) - 2 ^ 32

/-- `tag#rational(index)` (`tag.go`): out of range it builds
`big.NewRat(0, 0)`; in range it splits the stored 64-bit word into
numerator (low 32 bits) and denominator (high 32 bits), both unsigned. -/
def Tag.rational (t : Tag) (index : Nat) : Option ℚ :=
  if t.val.length ≤ index then bigNewRat 0 0
  else
    let u64 := t.val.getD index 0 % 2 ^ 64
    bigNewRat ((u64 % 2 ^ 32 : Nat) : Int) ((u64 / 2 ^ 32 : Nat) : Int)

/-- `tag#sRational(index)` (`tag.go`): like `rational` but numerator and
denominator are reinterpreted as signed 32-bit integers. -/
def Tag.sRational (t : Tag) (index : Nat) : Option ℚ :=
  if t.val.length ≤ index then bigNewRat 0 0
  else
    let u64 := t.val.getD index 0 % 2 ^ 64
    bigNewRat (toInt32 (u64 % 2 ^ 32)) (toInt32 (u64 / 2 ^ 32))

/-! ### Claim C4: PackBits (`unpackBits`, `compress.go`) -/

/-- `unpackBits` over the remaining input with the `dst` accumulator: read
a control byte `b` (Go code `int(int8(b))`); end of input at a control
byte is a clean EOF returning `dst`; `code >= 0` (`b < 128`) copies the
next `code+1` literal bytes with `io.ReadFull` (a short read is an error);
`code == -128` (`b = 128`) is a no-op; otherwise (`b > 128`) one more byte
is read (EOF here is an error) and appended `1-code = 257-b` times. Input
bytes are in `0..255`. The Go loop consumes at least one input byte per
iteration, so it is driven here by a fuel argument; any fuel at least the
input length gives the loop's result (`unpackBitsGo_fuel`). -/
def unpackBitsGo : Nat → List Nat → List Nat → Option (List Nat)
  | _, [], dst => some dst
  | 0, _ :: _, _ => none
  | fuel + 1, b :: rest, dst =>
      if b < 128 then
        if rest.length < b + 1 then none
        else unpackBitsGo fuel (rest.drop (b + 1)) (dst ++ rest.take (b + 1))
      else if b = 128 then
        unpackBitsGo fuel rest dst
      else
        match rest with
        | [] => none
        | v :: rest₁ => unpackBitsGo fuel rest₁ (dst ++ List.replicate (257 - b) v)

/-- `unpackBits` decodes a whole PackBits stream starting from an empty
output. -/
def unpackBits (input : List Nat) : Option (List Nat) :=
  unpackBitsGo input.length input []

/-! ### Claims C7 and C8: the CFA demosaic path
(`decodeColorFilterArray`, `decode_color_filter_array.go`)

Go float64 arithmetic on the tag-derived values is modelled by exact
rationals; the inputs used in the theorems below are dyadic, where float64
division is exact, so the model agrees with the Go computation there. -/

/-- Step 2 of `decodeColorFilterArray`: when `AsShotNeutral` is present
(`some vals`, the values already passed through `asFloat`), each gain is
the reciprocal of the neutral value, then `wb[0] /= wb[1]`,
`wb[1] /= wb[1]`, `wb[2] /= wb[1]` in that order — note the third division
reads `wb[1]` after it was set to 1. Absent tag: gains `{1,1,1}`. Go
indexes `wb[0..2]`, so the embedding is faithful for value lists of length
at least 3 (shorter ones panic in Go). -/
def whiteBalanceGains (neutral : Option (List ℚ)) : List ℚ :=
  match neutral with
  | none => [1, 1, 1]
  | some vals =>
      let wb := vals.map (fun v => 1 / v)
      let wb := wb.set 0 (wb.getD 0 0 / wb.getD 1 0)
      let wb := wb.set 1 (wb.getD 1 0 / wb.getD 1 0)
      let wb := wb.set 2 (wb.getD 2 0 / wb.getD 1 0)
      wb

/-- The white balance as the claim words it: reciprocals of the neutral
values, all three renormalized by the green (index 1) reciprocal so the
green gain is exactly 1. -/
def whiteBalanceGainsClaim (neutral : Option (List ℚ)) : List ℚ :=
  match neutral with
  | none => [1, 1, 1]
  | some vals =>
      let g := vals.map (fun v => 1 / v)
      [g.getD 0 0 / g.getD 1 0, g.getD 1 0 / g.getD 1 0, g.getD 2 0 / g.getD 1 0]

/-- The fixed sRGB-to-XYZ (D65) matrix shipped in
`decodeColorFilterArray`, row-major, decimal literals as exact
rationals. -/
def srgbD65 : List ℚ :=
  [4124564/10000000, 3575761/10000000, 1804375/10000000,
   2126729/10000000, 7151522/10000000, 721750/10000000,
   193339/10000000, 1191920/10000000, 9503041/10000000]

/-- Step 4 of `decodeColorFilterArray`: the camera-to-XYZ matrix. The
`ColorMatrix1`/`ColorMatrix2` inversion is commented out in the source;
the shipped assignment is the fixed matrix whatever the feature map
holds. -/
def camToXYZ (_features : TagMap) : List ℚ :=
  srgbD65

/-- The per-pixel color-space correction loop body of
`decodeColorFilterArray`: X, Y, Z as dot products of the demosaiced
camera r, g, b with the rows of the selected matrix. -/
def cfaColorCorrect (features : TagMap) (r g b : ℚ) : ℚ × ℚ × ℚ :=
  let m := camToXYZ features
  (r * m.getD 0 0 + g * m.getD 1 0 + b * m.getD 2 0,
   r * m.getD 3 0 + g * m.getD 4 0 + b * m.getD 5 0,
   r * m.getD 6 0 + g * m.getD 7 0 + b * m.getD 8 0)

/-! ### Claim C5: SGI Log RLE (`unRLE`, `compress.go`)

Input bytes come from `ReadByte` and are in `0..255`; on that range the
Go test `(b & 128) != 0` is `128 ≤ b`. Go's explicit
`if err: return / else continue` chains on fallible results are written
with `Option.bind` / `Option.map`. -/

/-- `bytesPerPixel` of `unRLE`: 4 (LogLuv), narrowed to 2 for LogL. The
spec calls this the bytes-per-channel-set. -/
def bytesPerChannelSet (mode : Mode) : Nat :=
  if mode = Mode.mLogL then 2 else 4

/-- Go `dst[i] = b`: out-of-bounds indexing panics, modelled as `none`. -/
def writeByte (dst : Array Nat) (i b : Nat) : Option (Array Nat) :=
  if h : i < dst.size then some (dst.set ⟨i, h⟩ b) else none

/-- The inner write loops of `unRLE`: store the bytes of a list at
`pos`, `pos+stride`, `pos+2*stride`, ... -/
def writeSeq : Array Nat → Nat → Nat → List Nat → Option (Array Nat)
  | dst, _, _, [] => some dst
  | dst, pos, stride, v :: vs =>
      (writeByte dst pos v).bind
        (fun dst₁ => writeSeq dst₁ (pos + stride) stride vs)

/-- The per-channel loop of `unRLE` (`for nbOfPixels > 0`): read a control
byte; `128 ≤ b` is a run of `int(b) + (2 - 128) = b - 126` copies of the
following literal byte; otherwise `b` raw bytes are copied; each produced
byte goes to `dst[rowOffest+offset]` with `offset` advancing by
`bytesPerPixel` (here `bpp`), and `nbOfPixels` (here `n`, a Go `int` that
runs can push below zero) is decremented by the run length. A read past
the end of the input is an error (`none`), as is an out-of-bounds write
(Go panic). The Go loop consumes at least one input byte per iteration,
so it is driven by a fuel argument; callers pass the remaining input
length, which is always sufficient: when the fuel runs out the input is
exhausted too, and the fuel-out arm agrees with the input-out arm. -/
def unRLEChan (bpp rowOffset : Nat) :
    Nat → List Nat → Array Nat → Nat → Int → Option (List Nat × Array Nat)
  | _, [], dst, _, n =>
      if n ≤ 0 then some ([], dst) else none
  | 0, b :: rest, dst, _, n =>
      if n ≤ 0 then some (b :: rest, dst) else none
  | fuel + 1, b :: rest, dst, offset, n =>
      if n ≤ 0 then some (b :: rest, dst)
      else if 128 ≤ b then
        match rest with
        | [] => none
        | v :: rest₁ =>
            (writeSeq dst (rowOffset + offset) bpp
                (List.replicate (b - 126) v)).bind
              (fun dst₁ => unRLEChan bpp rowOffset fuel rest₁ dst₁
                (offset + (b - 126) * bpp) (n - ((b - 126 : Nat) : Int)))
      else
        if rest.length < b then none
        else
          (writeSeq dst (rowOffset + offset) bpp (rest.take b)).bind
            (fun dst₁ => unRLEChan bpp rowOffset fuel (rest.drop b) dst₁
              (offset + b * bpp) (n - (b : Int)))

/-- The channel loop of `unRLE` over the byte-channels `0..bpp-1` of one
scanline: each channel starts at `offset = channel` and must produce
`blockWidth` bytes. -/
def unRLEChans (bpp rowOffset W : Nat) :
    List Nat → List Nat → Array Nat → Option (List Nat × Array Nat)
  | [], input, dst => some (input, dst)
  | c :: cs, input, dst =>
      (unRLEChan bpp rowOffset input.length input dst c (W : Int)).bind
        (fun r => unRLEChans bpp rowOffset W cs r.1 r.2)

/-- The row loop of `unRLE`: `rowOffest = row * blockWidth * bytesPerPixel`
for each scanline. -/
def unRLERows (bpp W : Nat) :
    List Nat → List Nat → Array Nat → Option (List Nat × Array Nat)
  | [], input, dst => some (input, dst)
  | row :: rows, input, dst =>
      (unRLEChans bpp (row * W * bpp) W (List.range bpp) input dst).bind
        (fun r => unRLERows bpp W rows r.1 r.2)

/-- `unRLE` (`compress.go`): allocate
`blockWidth * blockHeight * bytesPerPixel` zero bytes and run the
row/channel loops over the RLE stream. -/
def unRLE (mode : Mode) (blockWidth blockHeight : Nat) (input : List Nat) :
    Option (Array Nat) :=
  (unRLERows (bytesPerChannelSet mode) blockWidth
      (List.range blockHeight) input
      (Array.mkArray (blockWidth * blockHeight * bytesPerChannelSet mode) 0)).map
    (fun r => r.2)

/-- The claim's view of one channel's stream: decode codes until the pixel
budget `n` is spent, a control byte `128 ≤ b` yielding `b - 126` copies of
the following literal byte and a control byte `b < 128` yielding `b` raw
bytes copied verbatim, returning the produced byte sequence and the
remaining input. Fueled like `unRLEChan`. -/
def rleChannelSpecGo : Nat → List Nat → Int → Option (List Nat × List Nat)
  | _, [], n => if n ≤ 0 then some ([], []) else none
  | 0, b :: rest, n => if n ≤ 0 then some ([], b :: rest) else none
  | fuel + 1, b :: rest, n =>
      if n ≤ 0 then some ([], b :: rest)
      else if 128 ≤ b then
        match rest with
        | [] => none
        | v :: rest₁ =>
            (rleChannelSpecGo fuel rest₁ (n - ((b - 126 : Nat) : Int))).map
              (fun p => (List.replicate (b - 126) v ++ p.1, p.2))
      else
        if rest.length < b then none
        else
          (rleChannelSpecGo fuel (rest.drop b) (n - (b : Int))).map
            (fun p => (rest.take b ++ p.1, p.2))


/-! ### Theorems -/

/-- Lookup distributes over append of tag maps, earlier entries first. -/
theorem TagMap.lookup_append (a b : TagMap) (k : Nat) :
    TagMap.lookup (a ++ b) k =
      match TagMap.lookup a k with
      | some t => some t
      | none => TagMap.lookup b k := by
  induction a with
  | nil => simp [TagMap.lookup]
  | cons hd tl ih =>
      obtain ⟨k₁, t⟩ := hd
      by_cases h : k₁ = k <;> simp [TagMap.lookup, h, ih]

/-! ### Geometry lemmas -/

theorem geometry_blocksAcross_width_zero (height : Nat) (features : TagMap) :
    (geometry 0 height features).blocksAcross = 0 := by
  unfold geometry
  by_cases h : firstVal features tTileWidth = 0
  · simp [h]
  · simp only [h, ne_eq, not_false_eq_true, if_true, ite_not, if_neg]
    simp [h]
    exact Nat.div_eq_of_lt (Nat.sub_lt (Nat.pos_of_ne_zero h) Nat.one_pos)

theorem geometry_blocksDown_height_zero (width : Nat) (features : TagMap) :
    (geometry width 0 features).blocksDown = 0 := by
  unfold geometry
  by_cases h : firstVal features tTileWidth = 0
  · simp only [h]
    by_cases hr : firstVal features tRowsPerStrip = 0
    · simp [hr]
    · simp [hr]
      exact Nat.div_eq_of_lt (Nat.sub_lt (Nat.pos_of_ne_zero hr) Nat.one_pos)
  · simp only [h]
    by_cases hl : firstVal features tTileLength = 0
    · simp [h, hl]
    · simp [h, hl]
      exact Nat.div_eq_of_lt (Nat.sub_lt (Nat.pos_of_ne_zero hl) Nat.one_pos)

theorem blockList_eq_nil (width height : Nat) (g : Geometry)
    (h : g.blocksAcross = 0 ∨ g.blocksDown = 0) :
    blockList width height g = [] := by
  cases h with
  | inl h => simp [blockList, h]
  | inr h => simp [blockList, h]

/-- C1 counterexample: on the DNG tree `[c1Main, c1Sub]` the primary-image
IFD is `c1Sub`, yet the resulting feature map is not equal to `c1Sub`'s tag
map — the main IFD's `DNGVersion` entry survives the override, so the
feature map is merged into, not entirely replaced. -/
theorem c1_feature_map_not_replaced :
    findPrimary [c1Main, c1Sub] = some c1Sub ∧
    TagMap.lookup c1Sub tDNGVersion = none ∧
    TagMap.lookup (newIDFFeatures [c1Main, c1Sub]) tDNGVersion =
      some ⟨tDNGVersion, dtByte, [1, 4, 0, 0]⟩ ∧
    TagMap.lookup (newIDFFeatures [c1Main, c1Sub]) tDNGVersion ≠
      TagMap.lookup c1Sub tDNGVersion := by
  decide

/-- C1 (amended): for a DNG file whose parsed IFD tree contains a
primary-image IFD, `newIDF` adds that IFD's tags key-by-key over the
feature map: every tag of the first primary IFD overrides the main IFD's
binding, and tags only present in the main IFD are retained; in particular
`ImageWidth`/`ImageLength` come from the primary IFD whenever present
there. -/
theorem c1_dng_primary_overrides (main : TagMap) (rest : List TagMap)
    (primary : TagMap)
    (_hwf : wfNewSubFileType (main :: rest))
    (hdng : (TagMap.lookup main tDNGVersion).isSome = true)
    (hp : findPrimary (main :: rest) = some primary) :
    (∀ k, TagMap.lookup (newIDFFeatures (main :: rest)) k =
        match TagMap.lookup primary k with
        | some t => some t
        | none => TagMap.lookup main k) ∧
    (∀ t : Tag, TagMap.lookup primary tImageWidth = some t →
        TagMap.lookup (newIDFFeatures (main :: rest)) tImageWidth = some t) ∧
    (∀ t : Tag, TagMap.lookup primary tImageLength = some t →
        TagMap.lookup (newIDFFeatures (main :: rest)) tImageLength = some t) := by
  have hfeat : newIDFFeatures (main :: rest) = primary ++ main := by
    simp [newIDFFeatures, hp, hdng]
  refine ⟨?_, ?_, ?_⟩
  · intro k
    rw [hfeat, TagMap.lookup_append]
  · intro t ht
    rw [hfeat, TagMap.lookup_append, ht]
  · intro t ht
    rw [hfeat, TagMap.lookup_append, ht]

/-- C1 witness: on the concrete tree the amended theorem yields the
SubIFD's `ImageWidth` and `ImageLength`. -/
theorem c1_dng_primary_overrides_witness :
    TagMap.lookup (newIDFFeatures [c1Main, c1Sub]) tImageWidth =
      some ⟨tImageWidth, dtLong, [4000]⟩ ∧
    TagMap.lookup (newIDFFeatures [c1Main, c1Sub]) tImageLength =
      some ⟨tImageLength, dtLong, [3000]⟩ :=
  ⟨(c1_dng_primary_overrides c1Main [c1Sub] c1Sub (by decide) (by decide)
      (by decide)).2.1 ⟨tImageWidth, dtLong, [4000]⟩ (by decide),
   (c1_dng_primary_overrides c1Main [c1Sub] c1Sub (by decide) (by decide)
      (by decide)).2.2 ⟨tImageLength, dtLong, [3000]⟩ (by decide)⟩

/-! ### Claim C6: strip/tile consistency check -/

/-- C6: when the offsets or byte-counts array has fewer entries than
`blocksAcross * blocksDown`, `Decode` fails with the format error
"inconsistent header" whatever the per-block step would do — no block is
read or decompressed and no raster is returned. -/
theorem c6_inconsistent_header (width height : Nat) (features : TagMap)
    (mode : Mode) (bpp : Nat) (process : Block → Except Err Unit)
    (h : (geometry width height features).blockOffsets.length <
           (geometry width height features).blocksAcross *
             (geometry width height features).blocksDown ∨
         (geometry width height features).blockCounts.length <
           (geometry width height features).blocksAcross *
             (geometry width height features).blocksDown) :
    DecodeDriver width height mode bpp features process =
      Except.error (.format "inconsistent header") := by
  unfold DecodeDriver
  rw [if_pos h]

/-- C6 witness: a 2x2 strip image whose feature map lists no strip offsets
fails with "inconsistent header" even when every block step would succeed. -/
theorem c6_inconsistent_header_witness :
    DecodeDriver 2 2 .mRGB 32 [] (fun _ => .ok ()) =
      Except.error (.format "inconsistent header") :=
  c6_inconsistent_header 2 2 [] .mRGB 32 (fun _ => .ok ()) (by decide)

/-! ### Claim C10: zero-area images -/

/-- C10: when the parsed width or height is zero and the bit depth matches
the mode, `Decode` succeeds with the declared zero-area raster for every
per-block step — the block list is empty, so no strip or tile is ever
read. -/
theorem c10_zero_area (width height bpp : Nat) (features : TagMap) (mode : Mode)
    (hz : width = 0 ∨ height = 0) (hb : bpp = requiredBpp mode) :
    (∀ process, DecodeDriver width height mode bpp features process =
        .ok (rasterFor mode width height)) ∧
    blockList width height (geometry width height features) = [] := by
  have hn : (geometry width height features).blocksAcross *
      (geometry width height features).blocksDown = 0 := by
    cases hz with
    | inl h => subst h; rw [geometry_blocksAcross_width_zero]; simp
    | inr h => subst h; rw [geometry_blocksDown_height_zero]; simp
  have hbl : blockList width height (geometry width height features) = [] :=
    blockList_eq_nil width height _ (Nat.mul_eq_zero.mp hn)
  refine ⟨fun process => ?_, hbl⟩
  simp only [DecodeDriver]
  rw [hn, if_neg (by simp)]
  subst hb
  cases mode <;> simp [allocRaster, requiredBpp, rasterFor, hbl, decodeLoop]

/-- C10 witness: a 0x5 LogL image decodes to an empty raster with the
declared bounds even when the per-block step would always fail. -/
theorem c10_zero_area_witness :
    DecodeDriver 0 5 .mLogL 16 [] (fun _ => .error (.format "boom")) =
      .ok (rasterFor .mLogL 0 5) ∧
    blockList 0 5 (geometry 0 5 []) = [] :=
  ⟨(c10_zero_area 0 5 16 [] .mLogL (Or.inl rfl) rfl).1
      (fun _ => .error (.format "boom")),
   (c10_zero_area 0 5 16 [] .mLogL (Or.inl rfl) rfl).2⟩

/-- C2 counterexample: a 2x2 color-filter-array image with BitsPerSample 8
is rejected by `Decode` with the format error naming the expected depth —
the code accepts exactly 16 bits for CFA, so 8 is a mismatch, not a second
accepted depth. -/
theorem c2_cfa_8bpp_rejected :
    DecodeDriver 2 2 .mColorFilterArray 8 c2Features (fun _ => .ok ()) =
      Except.error (.format "Invalid BitsPerSample for ColorFilterArray format") := by
  rfl

/-- C2 (amended): for every input whose geometry check passes, a declared
bit depth different from the mode's required one — 32 for RGB32 and 16 for
LogL, LogLuv and CFA — makes `Decode` fail with the format error naming
the expected depth, before any block is decompressed (the error is
independent of the per-block step). -/
theorem c2_bpp_mismatch (width height bpp : Nat) (features : TagMap)
    (mode : Mode) (process : Block → Except Err Unit)
    (hgeo : ¬((geometry width height features).blockOffsets.length <
           (geometry width height features).blocksAcross *
             (geometry width height features).blocksDown ∨
         (geometry width height features).blockCounts.length <
           (geometry width height features).blocksAcross *
             (geometry width height features).blocksDown))
    (hb : bpp ≠ requiredBpp mode) :
    DecodeDriver width height mode bpp features process =
      Except.error (.format (bppErrMsg mode)) := by
  unfold DecodeDriver
  rw [if_neg hgeo]
  cases mode <;> simp [allocRaster, requiredBpp] at hb ⊢ <;> simp [hb]

/-- C2 witness: a 2x2 LogLuv image declaring 32 bits per sample fails with
the LogLuv bit-depth format error. -/
theorem c2_bpp_mismatch_witness :
    DecodeDriver 2 2 .mLogLuv 32 c2Features (fun _ => .ok ()) =
      Except.error (.format (bppErrMsg .mLogLuv)) :=
  c2_bpp_mismatch 2 2 32 c2Features .mLogLuv (fun _ => .ok ()) (by decide)
    (by decide)

/-- C3: a parsed `SampleFormat` entry makes IFD parsing fail with the
unsupported-feature error exactly when one of its decoded values equals 1;
otherwise parsing continues with the tag map unchanged, so the
`SampleFormat` entry is never stored in the tree. -/
theorem c3_sample_format (m : TagMap) (dt : Nat) (val : List Nat) :
    (1 ∈ val →
      parseIFDEntry m tSampleFormat dt val =
        Except.error (.unsupported "sample format")) ∧
    (1 ∉ val → parseIFDEntry m tSampleFormat dt val = .ok m) ∧
    (∀ m', parseIFDEntry m tSampleFormat dt val = .ok m' →
      TagMap.lookup m' tSampleFormat = TagMap.lookup m tSampleFormat) := by
  have hni : tSampleFormat ∉ interestingTags := by decide
  refine ⟨fun h1 => ?_, fun h1 => ?_, fun m' hm' => ?_⟩
  · simp [parseIFDEntry, hni, h1]
  · simp [parseIFDEntry, hni, h1]
  · by_cases hmem : 1 ∈ val
    · simp [parseIFDEntry, hni, hmem] at hm'
    · simp [parseIFDEntry, hni, hmem] at hm'
      rw [hm']

/-- C3 witness: a SampleFormat entry with values [3, 1] aborts parsing,
one with values [2, 3] is skipped without touching the map. -/
theorem c3_sample_format_witness :
    parseIFDEntry [] tSampleFormat dtShort [3, 1] =
      Except.error (.unsupported "sample format") ∧
    parseIFDEntry [] tSampleFormat dtShort [2, 3] = .ok [] :=
  ⟨(c3_sample_format [] dtShort [3, 1]).1 (by decide),
   (c3_sample_format [] dtShort [2, 3]).2.1 (by decide)⟩

/-- C9: on every out-of-range index, `rational` and `sRational` reach
`big.NewRat(0, 0)`, which panics ("division by zero") instead of returning
a 0/0 rational — the accessors are not total; in particular the
absent-tag case (empty value list, index 0) panics. -/
theorem c9_rational_out_of_range_panics :
    (∀ (t : Tag) (i : Nat), t.val.length ≤ i → Tag.rational t i = none) ∧
    (∀ (t : Tag) (i : Nat), t.val.length ≤ i → Tag.sRational t i = none) ∧
    Tag.rational ⟨tAsShotNeutral, dtRational, []⟩ 0 = none ∧
    Tag.sRational ⟨tBaselineExposure, dtSRational, []⟩ 0 = none := by
  refine ⟨fun t i h => ?_, fun t i h => ?_, by decide, by decide⟩
  · simp [Tag.rational, h, bigNewRat]
  · simp [Tag.sRational, h, bigNewRat]

/-- C9 witness: an in-bounds word still exists but index 5 is out of range
on a one-word tag, so the accessor hits the panicking path. -/
theorem c9_rational_out_of_range_panics_witness :
    Tag.rational ⟨tAsShotNeutral, dtRational, [4294967298]⟩ 5 = none :=
  c9_rational_out_of_range_panics.1 ⟨tAsShotNeutral, dtRational, [4294967298]⟩ 5
    (by decide)

/-- Any fuel at least the input length yields the same result. -/
theorem unpackBitsGo_fuel :
    ∀ (fuel fuel₁ : Nat) (input dst : List Nat),
      input.length ≤ fuel → input.length ≤ fuel₁ →
      unpackBitsGo fuel input dst = unpackBitsGo fuel₁ input dst := by
  intro fuel
  induction fuel with
  | zero =>
      intro fuel₁ input dst h h₁
      rw [List.length_eq_zero.mp (Nat.le_zero.mp h)]
      cases fuel₁ <;> simp [unpackBitsGo]
  | succ fuel ih =>
      intro fuel₁ input dst h h₁
      match input with
      | [] => cases fuel₁ <;> simp [unpackBitsGo]
      | b :: rest =>
          match fuel₁ with
          | 0 => exact absurd h₁ (by simp)
          | fuel₁ + 1 =>
              simp only [List.length_cons, Nat.succ_le_succ_iff] at h h₁
              show (if b < 128 then _ else _) = (if b < 128 then _ else _)
              by_cases h1 : b < 128
              · rw [if_pos h1, if_pos h1]
                by_cases h2 : rest.length < b + 1
                · rw [if_pos h2, if_pos h2]
                · rw [if_neg h2, if_neg h2]
                  exact ih fuel₁ _ _
                    (le_trans (by simp [Nat.sub_le_iff_le_add]; omega) le_rfl)
                    (by simp; omega)
              · rw [if_neg h1, if_neg h1]
                by_cases h2 : b = 128
                · rw [if_pos h2, if_pos h2]
                  exact ih fuel₁ _ _ h h₁
                · rw [if_neg h2, if_neg h2]
                  match rest with
                  | [] => rfl
                  | v :: rest₁ =>
                      simp only [List.length_cons, Nat.succ_le_iff] at h h₁
                      exact ih fuel₁ _ _ (le_of_lt h) (le_of_lt h₁)

/-- The accumulator of `unpackBitsGo` only prefixes the final output. -/
theorem unpackBitsGo_acc :
    ∀ (fuel : Nat) (input dst : List Nat),
      unpackBitsGo fuel input dst = (unpackBitsGo fuel input []).map (dst ++ ·) := by
  intro fuel
  induction fuel with
  | zero =>
      intro input dst
      cases input <;> simp [unpackBitsGo]
  | succ fuel ih =>
      intro input dst
      match input with
      | [] => simp [unpackBitsGo]
      | b :: rest =>
          show (if b < 128 then _ else _) =
            Option.map _ (if b < 128 then _ else _)
          by_cases h1 : b < 128
          · rw [if_pos h1, if_pos h1]
            by_cases h2 : rest.length < b + 1
            · rw [if_pos h2, if_pos h2]
              rfl
            · rw [if_neg h2, if_neg h2,
                ih (rest.drop (b + 1)) (dst ++ rest.take (b + 1)),
                ih (rest.drop (b + 1)) ([] ++ rest.take (b + 1))]
              cases unpackBitsGo fuel (rest.drop (b + 1)) [] <;>
                simp [List.append_assoc]
          · rw [if_neg h1, if_neg h1]
            by_cases h2 : b = 128
            · rw [if_pos h2, if_pos h2, ih rest dst, ih rest []]
            · rw [if_neg h2, if_neg h2]
              match rest with
              | [] => rfl
              | v :: rest₁ =>
                  show unpackBitsGo fuel rest₁ (dst ++ List.replicate (257 - b) v) =
                    Option.map (fun x => dst ++ x)
                      (unpackBitsGo fuel rest₁ ([] ++ List.replicate (257 - b) v))
                  rw [ih rest₁ (dst ++ List.replicate (257 - b) v),
                    ih rest₁ ([] ++ List.replicate (257 - b) v)]
                  cases unpackBitsGo fuel rest₁ [] <;>
                    simp [List.append_assoc]

/-- C4: PackBits decoding semantics — empty input decodes to empty
output; a control byte `b < 128` copies the next `b+1` literal bytes
(failing on a short read); the control byte 128 (code -128) emits
nothing; a control byte `b > 128` (negative code) repeats the next byte
`257-b = 1-code` times, failing when that byte is missing; and the three
reference streams decode as stated. -/
theorem c4_packbits :
    (unpackBits [] = some []) ∧
    (∀ b rest, b < 128 →
      unpackBits (b :: rest) =
        if rest.length < b + 1 then none
        else (unpackBits (rest.drop (b + 1))).map (rest.take (b + 1) ++ ·)) ∧
    (∀ rest, unpackBits (128 :: rest) = unpackBits rest) ∧
    (∀ b v rest, 128 < b → b < 256 →
      unpackBits (b :: v :: rest) =
        (unpackBits rest).map (List.replicate (257 - b) v ++ ·)) ∧
    (∀ b, 128 < b → unpackBits [b] = none) ∧
    unpackBits [2, 0x41, 0x42, 0x43] = some [0x41, 0x42, 0x43] ∧
    unpackBits [0xFE, 0x41] = some [0x41, 0x41, 0x41] ∧
    unpackBits [0x80] = some [] := by
  refine ⟨by decide, fun b rest hb => ?_, fun rest => ?_,
    fun b v rest hb _ => ?_, fun b hb => ?_, by decide, by decide, by decide⟩
  · unfold unpackBits
    show (if b < 128 then
        if rest.length < b + 1 then none
        else unpackBitsGo rest.length (rest.drop (b + 1))
          ([] ++ rest.take (b + 1))
      else if b = 128 then unpackBitsGo rest.length rest []
      else match rest with
        | [] => none
        | v :: rest₁ =>
            unpackBitsGo rest.length rest₁ ([] ++ List.replicate (257 - b) v)) = _
    rw [if_pos hb]
    by_cases h2 : rest.length < b + 1
    · rw [if_pos h2, if_pos h2]
    · rw [if_neg h2, if_neg h2,
        unpackBitsGo_acc rest.length (rest.drop (b + 1)) ([] ++ rest.take (b + 1)),
        unpackBitsGo_fuel rest.length (rest.drop (b + 1)).length
          (rest.drop (b + 1)) [] (by simp) le_rfl]
      simp
  · unfold unpackBits
    show (if (128 : Nat) < 128 then _
      else if (128 : Nat) = 128 then unpackBitsGo rest.length rest []
      else _) = unpackBitsGo rest.length rest []
    rw [if_neg (by omega), if_pos rfl]
  · unfold unpackBits
    show (if b < 128 then _
      else if b = 128 then _
      else unpackBitsGo (v :: rest).length rest
        ([] ++ List.replicate (257 - b) v)) = _
    rw [if_neg (by omega), if_neg (by omega),
      unpackBitsGo_acc (v :: rest).length rest ([] ++ List.replicate (257 - b) v),
      unpackBitsGo_fuel (v :: rest).length rest.length rest [] (by simp) le_rfl]
    simp
  · unfold unpackBits
    show (if b < 128 then _
      else if b = 128 then _
      else match ([] : List Nat) with
        | [] => none
        | v :: rest₁ =>
            unpackBitsGo 0 rest₁ ([] ++ List.replicate (257 - b) v)) = none
    rw [if_neg (by omega), if_neg (by omega)]

/-- C4 witness: control byte 253 (code -3) repeats the following byte 4
times. -/
theorem c4_packbits_witness : unpackBits [253, 9] = some [9, 9, 9, 9] := by
  rw [c4_packbits.2.2.2.1 253 9 [] (by decide) (by decide)]
  decide

/-- C7: on `AsShotNeutral = {1/2, 1/2, 1/2}` the code produces gains
`{1, 1, 2}` — the blue gain is divided by the already-normalized green
gain (1) instead of the original green reciprocal — while the claimed
renormalization gives `{1, 1, 1}`; the two agree on the spec's example
`{0.5, 1.0, 0.8}` only because its green neutral is 1; the absent-tag
default is `{1,1,1}`. All inputs here are dyadic, so the rational model
matches float64 exactly. -/
theorem c7_white_balance_blue_not_renormalized :
    whiteBalanceGains (some [1/2, 1/2, 1/2]) = [1, 1, 2] ∧
    whiteBalanceGainsClaim (some [1/2, 1/2, 1/2]) = [1, 1, 1] ∧
    whiteBalanceGains (some [1/2, 1/2, 1/2]) ≠
      whiteBalanceGainsClaim (some [1/2, 1/2, 1/2]) ∧
    whiteBalanceGains (some [1/2, 1, 4/5]) = [2, 1, 5/4] ∧
    whiteBalanceGains none = [1, 1, 1] := by
  have h1 : whiteBalanceGains (some [1/2, 1/2, 1/2]) = [1, 1, 2] := by
    norm_num [whiteBalanceGains]
  have h2 : whiteBalanceGainsClaim (some [1/2, 1/2, 1/2]) = [1, 1, 1] := by
    norm_num [whiteBalanceGainsClaim]
  refine ⟨h1, h2, ?_, ?_, by norm_num [whiteBalanceGains]⟩
  · rw [h1, h2]
    norm_num
  · norm_num [whiteBalanceGains]

/-- C8: the CFA color-space correction uses the fixed sRGB/D65 matrix for
every feature map, and erasing the `ColorMatrix1`/`ColorMatrix2` entries
changes neither the matrix nor any corrected pixel — the tags are ignored
even when present, and no inversion happens on the shipped path. -/
theorem c8_fixed_srgb_matrix (features : TagMap) (r g b : ℚ) :
    camToXYZ features = srgbD65 ∧
    camToXYZ features =
      camToXYZ
        (TagMap.eraseKey (TagMap.eraseKey features tColorMatrix1) tColorMatrix2) ∧
    cfaColorCorrect features r g b =
      cfaColorCorrect
        (TagMap.eraseKey (TagMap.eraseKey features tColorMatrix1) tColorMatrix2)
        r g b :=
  ⟨rfl, rfl, rfl⟩

/-- Writing a concatenation writes the first part, then the second at the
advanced position. -/
theorem writeSeq_append :
    ∀ (xs ys : List Nat) (dst : Array Nat) (pos stride : Nat),
      writeSeq dst pos stride (xs ++ ys) =
        (writeSeq dst pos stride xs).bind
          (fun d => writeSeq d (pos + xs.length * stride) stride ys) := by
  intro xs
  induction xs with
  | nil =>
      intro ys dst pos stride
      simp [writeSeq]
  | cons v vs ih =>
      intro ys dst pos stride
      simp only [List.cons_append, writeSeq, List.length_cons]
      cases writeByte dst pos v with
      | none => simp
      | some dst₁ =>
          simp only [Option.some_bind, List.append_eq]
          rw [ih ys dst₁ (pos + stride) stride]
          cases writeSeq dst₁ (pos + stride) stride vs with
          | none => simp
          | some d =>
              simp only [Option.some_bind]
              congr 1
              ring

/-- `writeSeq` never changes the buffer size. -/
theorem writeSeq_size :
    ∀ (xs : List Nat) (dst : Array Nat) (pos stride : Nat) (d : Array Nat),
      writeSeq dst pos stride xs = some d → d.size = dst.size := by
  intro xs
  induction xs with
  | nil =>
      intro dst pos stride d h
      simp [writeSeq] at h
      rw [← h]
  | cons v vs ih =>
      intro dst pos stride d
      simp only [writeSeq]
      cases hwb : writeByte dst pos v with
      | none => intro h; exact absurd h (by simp)
      | some dst₁ =>
          simp only [Option.some_bind]
          intro h
          have h₁ := ih dst₁ (pos + stride) stride d h
          have h₂ : dst₁.size = dst.size := by
            unfold writeByte at hwb
            by_cases hlt : pos < dst.size
            · rw [dif_pos hlt] at hwb
              injection hwb with hh
              rw [← hh]
              simp
            · rw [dif_neg hlt] at hwb
              exact absurd hwb (by simp)
          rw [h₁, h₂]

/-- The imperative channel loop equals the claim's stream semantics
followed by one strided write of the produced bytes: the channel's bytes
land at `rowOffset + offset`, `rowOffset + offset + bpp`, ... -/
theorem unRLEChan_eq_spec :
    ∀ (fuel : Nat) (input : List Nat) (dst : Array Nat) (offset : Nat)
      (n : Int) (bpp rowOffset : Nat),
      unRLEChan bpp rowOffset fuel input dst offset n =
        (rleChannelSpecGo fuel input n).bind
          (fun p => (writeSeq dst (rowOffset + offset) bpp p.1).map
            (fun d => (p.2, d))) := by
  intro fuel
  induction fuel with
  | zero =>
      intro input dst offset n bpp rowOffset
      cases input with
      | nil => by_cases hn : n ≤ 0 <;> simp [unRLEChan, rleChannelSpecGo, hn, writeSeq]
      | cons b rest =>
          by_cases hn : n ≤ 0 <;> simp [unRLEChan, rleChannelSpecGo, hn, writeSeq]
  | succ fuel ih =>
      intro input dst offset n bpp rowOffset
      cases input with
      | nil => by_cases hn : n ≤ 0 <;> simp [unRLEChan, rleChannelSpecGo, hn, writeSeq]
      | cons b rest =>
          by_cases hn : n ≤ 0
          · simp [unRLEChan, rleChannelSpecGo, hn, writeSeq]
          · by_cases hb : 128 ≤ b
            · cases rest with
              | nil => simp [unRLEChan, rleChannelSpecGo, hn, hb]
              | cons v rest₁ =>
                  simp only [unRLEChan, rleChannelSpecGo, if_neg hn, if_pos hb]
                  cases hws : writeSeq dst (rowOffset + offset) bpp
                      (List.replicate (b - 126) v) with
                  | none =>
                      cases hs : rleChannelSpecGo fuel rest₁
                          (n - ((b - 126 : Nat) : Int)) with
                      | none => simp
                      | some p => simp [writeSeq_append, hws]
                  | some dst₁ =>
                      cases hs : rleChannelSpecGo fuel rest₁
                          (n - ((b - 126 : Nat) : Int)) with
                      | none => simp [ih, hs]
                      | some p =>
                          simp [ih, hs, writeSeq_append, hws, Nat.add_assoc]
            · simp only [unRLEChan, rleChannelSpecGo, if_neg hn, if_neg hb]
              by_cases hlen : rest.length < b
              · simp [hlen]
              · simp only [if_neg hlen]
                have htk : (rest.take b).length = b := by
                  rw [List.length_take]
                  omega
                cases hws : writeSeq dst (rowOffset + offset) bpp
                    (rest.take b) with
                | none =>
                    cases hs : rleChannelSpecGo fuel (rest.drop b)
                        (n - (b : Int)) with
                    | none => simp
                    | some p => simp [writeSeq_append, hws]
                | some dst₁ =>
                    cases hs : rleChannelSpecGo fuel (rest.drop b)
                        (n - (b : Int)) with
                    | none => simp [ih, hs]
                    | some p =>
                        simp [ih, hs, writeSeq_append, hws, htk, Nat.add_assoc]

/-- The channel loop never changes the buffer size. -/
theorem unRLEChan_size (fuel : Nat) (input : List Nat) (dst : Array Nat)
    (offset : Nat) (n : Int) (bpp rowOffset : Nat) (input₁ : List Nat)
    (dst₁ : Array Nat)
    (h : unRLEChan bpp rowOffset fuel input dst offset n = some (input₁, dst₁)) :
    dst₁.size = dst.size := by
  rw [unRLEChan_eq_spec] at h
  cases hs : rleChannelSpecGo fuel input n with
  | none => rw [hs] at h; simp at h
  | some p =>
      rw [hs] at h
      simp only [Option.some_bind] at h
      cases hw : writeSeq dst (rowOffset + offset) bpp p.1 with
      | none => rw [hw] at h; simp at h
      | some d =>
          rw [hw] at h
          simp at h
          rw [← h.2]
          exact writeSeq_size p.1 dst _ _ d hw

/-- The per-scanline channel fold never changes the buffer size. -/
theorem unRLEChans_size :
    ∀ (chans : List Nat) (bpp rowOffset W : Nat) (input : List Nat)
      (dst : Array Nat) (input₁ : List Nat) (dst₁ : Array Nat),
      unRLEChans bpp rowOffset W chans input dst = some (input₁, dst₁) →
      dst₁.size = dst.size := by
  intro chans
  induction chans with
  | nil =>
      intro bpp rowOffset W input dst input₁ dst₁ h
      simp [unRLEChans] at h
      rw [← h.2]
  | cons c cs ih =>
      intro bpp rowOffset W input dst input₁ dst₁
      simp only [unRLEChans]
      cases hc : unRLEChan bpp rowOffset input.length input dst c (W : Int) with
      | none => intro h; exact absurd h (by simp)
      | some r =>
          simp only [Option.some_bind]
          intro h
          have h₁ := ih bpp rowOffset W r.1 r.2 input₁ dst₁ h
          have h₂ := unRLEChan_size input.length input dst c (W : Int)
            bpp rowOffset r.1 r.2 (by rw [hc])
          rw [h₁, h₂]

/-- The row fold never changes the buffer size. -/
theorem unRLERows_size :
    ∀ (rows : List Nat) (bpp W : Nat) (input : List Nat) (dst : Array Nat)
      (input₁ : List Nat) (dst₁ : Array Nat),
      unRLERows bpp W rows input dst = some (input₁, dst₁) →
      dst₁.size = dst.size := by
  intro rows
  induction rows with
  | nil =>
      intro bpp W input dst input₁ dst₁ h
      simp [unRLERows] at h
      rw [← h.2]
  | cons row rs ih =>
      intro bpp W input dst input₁ dst₁
      simp only [unRLERows]
      cases hc : unRLEChans bpp (row * W * bpp) W (List.range bpp) input dst with
      | none => intro h; exact absurd h (by simp)
      | some r =>
          simp only [Option.some_bind]
          intro h
          have h₁ := ih bpp W r.1 r.2 input₁ dst₁ h
          have h₂ := unRLEChans_size (List.range bpp) bpp (row * W * bpp) W
            input dst r.1 r.2 hc
          rw [h₁, h₂]

/-- C5: on success `unRLE` returns exactly
`blockWidth * blockHeight * bytesPerChannelSet` bytes, with the set size 4
for LogLuv and 2 for LogL; each channel of each scanline is the claim's
per-channel RLE stream (runs of `byte − 126` copies of the following
literal for a high-bit-set control byte, `byte` raw bytes otherwise,
until the width is covered) written at stride `bytesPerChannelSet` from
its starting position, as the general correspondence states; and the
concrete LogL streams de-interleave into alternating bytes of the output
row rather than concatenated planar blocks. -/
theorem c5_unrle :
    (∀ (mode : Mode) (blockWidth blockHeight : Nat) (input : List Nat)
        (out : Array Nat),
      unRLE mode blockWidth blockHeight input = some out →
        out.size = blockWidth * blockHeight * bytesPerChannelSet mode) ∧
    bytesPerChannelSet Mode.mLogLuv = 4 ∧
    bytesPerChannelSet Mode.mLogL = 2 ∧
    (∀ (bpp rowOffset fuel : Nat) (input : List Nat) (dst : Array Nat)
        (offset : Nat) (n : Int),
      unRLEChan bpp rowOffset fuel input dst offset n =
        (rleChannelSpecGo fuel input n).bind
          (fun p => (writeSeq dst (rowOffset + offset) bpp p.1).map
            (fun d => (p.2, d)))) ∧
    unRLE Mode.mLogL 2 1 [2, 0xAA, 0xBB, 2, 0xCC, 0xDD] =
      some #[0xAA, 0xCC, 0xBB, 0xDD] ∧
    unRLE Mode.mLogL 3 1 [129, 5, 129, 6] = some #[5, 6, 5, 6, 5, 6] ∧
    unRLE Mode.mLogLuv 1 1 [1, 9, 1, 8, 1, 7, 1, 6] = some #[9, 8, 7, 6] := by
  refine ⟨?_, by decide, by decide,
    fun bpp rowOffset fuel input dst offset n =>
      unRLEChan_eq_spec fuel input dst offset n bpp rowOffset,
    by decide, by decide, by decide⟩
  intro mode blockWidth blockHeight input out h
  unfold unRLE at h
  cases hr : unRLERows (bytesPerChannelSet mode) blockWidth
      (List.range blockHeight) input
      (Array.mkArray (blockWidth * blockHeight * bytesPerChannelSet mode) 0) with
  | none => rw [hr] at h; simp at h
  | some r =>
      rw [hr] at h
      simp at h
      rw [← h]
      have := unRLERows_size (List.range blockHeight) (bytesPerChannelSet mode)
        blockWidth input _ r.1 r.2 hr
      simpa using this

/-- C5 witness: the first de-interleaving example instantiates the size
statement. -/
theorem c5_unrle_witness :
    (#[0xAA, 0xCC, 0xBB, 0xDD] : Array Nat).size =
      2 * 1 * bytesPerChannelSet Mode.mLogL :=
  c5_unrle.1 Mode.mLogL 2 1 [2, 0xAA, 0xBB, 2, 0xCC, 0xDD]
    #[0xAA, 0xCC, 0xBB, 0xDD] (by decide)

end TiffSpec
